import Mathlib

/-!
Verification of the ClawdBody permission engine
(packages/jarvis-sdk/src/permission/PolicyEngine.ts and PermissionAPI.ts).

The TypeScript sources are shallowly embedded as executable Lean
definitions:

* JS runtime values appearing in rule conditions and request contexts are
  modelled by `JValue`.  JS numbers are IEEE doubles; every finite value
  the engine and the claims use is integral and is modelled by
  `num : Int`, while `NaN` — which satisfies `typeof NaN === "number"`
  yet makes every comparison with it false — is modelled by the separate
  constructor `nan`, because the condition operators `gt` and `lt`
  distinguish exactly this behaviour.  Strict equality `===` is
  modelled by `jsEq` (`NaN === NaN` is false); `Array.includes` uses the
  SameValueZero comparison, which differs from `===` only in treating
  `NaN` as equal to itself, modelled by `jsSameValueZero`.  Two arrays
  are strictly equal in JS only when they are the same object reference,
  which cannot relate a stored policy value and an incoming request
  value, so both equalities are `false` on arrays.
* The maps `policies : Map<string, Policy>` and
  `tenantPolicies : Map<string, Set<string>>` are modelled as functions
  out of policy ids, resp. tenant ids.  Fresh nanoid ids are modelled by
  a counter `nextId`, which also serves as the creation timestamp
  (each `createPolicy` call happens at a strictly later time).
  A JS `Set` iterates in insertion order, so a tenant index is a
  duplicate-free list of ids in insertion order.
* `pattern.replace(/[.+?^${}()|[\]\\]/g, ...)` escapes every regex
  metacharacter except `*`, and `*` becomes `.*`; the resulting regex is
  anchored with `^...$` and has no flags.  In a JavaScript regex without
  the `s` (dotAll) flag, `.` matches any character except the line
  terminators LF, CR, U+2028 and U+2029.  The language of the generated
  regex is therefore: the pattern segments between the stars occur
  literally and in order, and each star stands for a possibly empty run
  of non-line-terminator characters.  `globFuel` decides that language
  (the fuel argument bounds the recursion depth and is set to an upper
  bound that is proved sufficient); `GlobSem` is the corresponding
  relational semantics and `globChars_iff_globSem` connects the two.
-/

/-- JS runtime value as it appears in contexts and condition values.
`num` covers the finite numbers (integral in every use here); `nan` is
`NaN`, a value of JS type number whose every ordering comparison is
false. -/
inductive JValue where
  | str : String → JValue
  | num : Int → JValue
  | nan : JValue
  | bool : Bool → JValue
  | null : JValue
  | undef : JValue
  | arr : List JValue → JValue

/-- JS strict equality `===` restricted to the values above.
`NaN === NaN` is false.  Arrays are compared by object reference in JS;
distinct array objects are never strictly equal, hence the `arr` cases
yield `false`. -/
def jsEq : JValue → JValue → Bool
  | JValue.str a, JValue.str b => a == b
  | JValue.num a, JValue.num b => a == b
  | JValue.nan, JValue.nan => false
  | JValue.bool a, JValue.bool b => a == b
  | JValue.null, JValue.null => true
  | JValue.undef, JValue.undef => true
  | _, _ => false

/-- The SameValueZero comparison used by `Array.prototype.includes`:
like `===` except that `NaN` counts as equal to itself. -/
def jsSameValueZero : JValue → JValue → Bool
  | JValue.nan, JValue.nan => true
  | a, b => jsEq a b

/-- JS `typeof x === "number"`: true for every number, `NaN` included. -/
def isNumber : JValue → Bool
  | JValue.num _ => true
  | JValue.nan => true
  | _ => false

/-- JS `<=` on two number-typed values: any comparison involving `NaN`
is false. -/
def jsNumLe : JValue → JValue → Bool
  | JValue.num a, JValue.num b => decide (a ≤ b)
  | _, _ => false

/-- JS `>=` on two number-typed values: any comparison involving `NaN`
is false. -/
def jsNumGe : JValue → JValue → Bool
  | JValue.num a, JValue.num b => decide (a ≥ b)
  | _, _ => false

/-- JS strict `>` on two number-typed values: any comparison involving
`NaN` is false. -/
def jsNumGt : JValue → JValue → Bool
  | JValue.num a, JValue.num b => decide (a > b)
  | _, _ => false

/-- `src/types.ts`: `type ActorType = user | agent | service | system`.
`PolicyEngine.matchesActor` additionally compares against the literal
`'*' as ActorType`, so the runtime type of an actor matcher includes the
wildcard; `star` models it. -/
inductive ActorType where
  | user | agent | service | system | star
deriving DecidableEq

/-- `src/types.ts`: `PermissionAction`. -/
inductive PermissionAction where
  | create | read | update | delete | execute | admin | star
deriving DecidableEq

/-- String form of an action, as interpolated into JS template strings. -/
def permActionToString : PermissionAction → String
  | PermissionAction.create => "create"
  | PermissionAction.read => "read"
  | PermissionAction.update => "update"
  | PermissionAction.delete => "delete"
  | PermissionAction.execute => "execute"
  | PermissionAction.admin => "admin"
  | PermissionAction.star => "*"

/-- `src/types.ts`: `PermissionCondition`.  The TS type restricts
`operator` to seven literals, but the runtime value is a plain string
(policy data may arrive from JSON through a cast), and the evaluation
code switches on that string, so the model keeps it as `String`. -/
structure PermissionCondition where
  field : String
  operator : String
  value : JValue

/-- `src/types.ts`: rule effect, `allow | deny`. -/
inductive Effect where
  | allow | deny
deriving DecidableEq

/-- `src/types.ts`: `ActorMatcher`. -/
structure ActorMatcher where
  type : ActorType
  pattern : String

/-- `src/types.ts`: `PolicyRule`. -/
structure PolicyRule where
  effect : Effect
  actors : List ActorMatcher
  resources : List String
  actions : List PermissionAction
  conditions : Option (List PermissionCondition) := none

/-- `src/types.ts`: `Policy`.  `id` and `createdAt` are both drawn from
the state counter `nextId`: nanoid ids are modelled by the counter value
and the `Date` of creation by the same value, since each creation event
happens at a strictly later time than the previous one. -/
structure Policy where
  id : Nat
  tenantId : String
  name : String
  description : Option String
  rules : List PolicyRule
  priority : Int
  enabled : Bool
  createdAt : Nat

/-- `src/types.ts`: `PermissionCheckOptions`.  The context map is an
association list; keys of a JS object literal are unique. -/
structure PermissionCheckOptions where
  actorId : String
  actorType : ActorType
  resource : String
  action : PermissionAction
  context : Option (List (String × JValue)) := none

/-- `context[condition.field]` — a missing key reads as `undefined`. -/
def ctxGet (ctx : List (String × JValue)) (f : String) : JValue :=
  match ctx.find? (fun kv => kv.1 == f) with
  | some kv => kv.2
  | none => JValue.undef

/-- A line terminator for JS regex `.`: LF, CR, U+2028, U+2029. -/
def isLineTerm (c : Char) : Bool :=
  c == '\n' || c == '\r' || c == Char.ofNat 0x2028 || c == Char.ofNat 0x2029

/-- Decides whether a subject is in the language of the regex that
`matchesPattern` builds from a pattern: segments between stars are
literal, each `*` (turned into `.`&`*`) matches a possibly empty run of
non-line-terminator characters, and the whole subject must match
(`^...$`).  The fuel argument only bounds the recursion depth;
`globChars` applies it with a sufficient bound. -/
def globFuel : Nat → List Char → List Char → Bool
  | 0, _, _ => false
  | _ + 1, [], ss => ss.isEmpty
  | n + 1, p :: ps, ss =>
    if p = '*' then
      globFuel n ps ss ||
        (match ss with
         | [] => false
         | c :: ss' => !isLineTerm c && globFuel n (p :: ps) ss')
    else
      match ss with
      | [] => false
      | c :: ss' => p == c && globFuel n ps ss'

/-- Matching of a glob pattern against a subject, character lists. -/
def globChars (ps ss : List Char) : Bool :=
  globFuel (ps.length + ss.length + 1) ps ss

/-- `PolicyEngine.matchesPattern`: the literal pattern `"*"` short
circuits to `true`; otherwise the pattern is compiled to an anchored
regex whose language `globChars` decides. -/
def matchesPattern (pat value : String) : Bool :=
  if pat = "*" then true else globChars pat.data value.data

/-- Prefix test on character lists (JS `startsWith` at one position). -/
def hasPrefixChars : List Char → List Char → Bool
  | [], _ => true
  | _ :: _, [] => false
  | a :: as, b :: bs => a == b && hasPrefixChars as bs

/-- Substring test on character lists: JS `haystack.includes(needle)`. -/
def hasInfixChars (needle : List Char) : List Char → Bool
  | [] => needle.isEmpty
  | c :: hay => hasPrefixChars needle (c :: hay) || hasInfixChars needle hay

/-- One arm of the `switch (condition.operator)` in
`PolicyEngine.matchesConditions`: `true` means the loop does not return
`false` for this condition.  The switch has no `default` case, so a
condition whose operator is none of the seven listed strings leaves the
loop silently — the final arm yields `true`.  The `gt` and `lt` arms
mirror the source exactly: a `typeof` test on both sides followed by a
NEGATED non-strict comparison (`value <= condition.value`, resp.
`value >= condition.value`), which agrees with the strict comparison on
finite numbers but not when a side is `NaN`. -/
def condOk (c : PermissionCondition) (ctx : List (String × JValue)) : Bool :=
  let value := ctxGet ctx c.field
  if c.operator = "eq" then jsEq value c.value
  else if c.operator = "neq" then !jsEq value c.value
  else if c.operator = "in" then
    match c.value with
    | JValue.arr vs => vs.any (fun e => jsSameValueZero e value)
    | _ => false
  else if c.operator = "nin" then
    match c.value with
    | JValue.arr vs => !vs.any (fun e => jsSameValueZero e value)
    | _ => true
  else if c.operator = "gt" then
    if isNumber value && isNumber c.value then !jsNumLe value c.value
    else false
  else if c.operator = "lt" then
    if isNumber value && isNumber c.value then !jsNumGe value c.value
    else false
  else if c.operator = "contains" then
    match value, c.value with
    | JValue.str a, JValue.str b => hasInfixChars b.data a.data
    | _, _ => false
  else true

/-- `PolicyEngine.matchesConditions`: the loop returns `false` on the
first failing condition and `true` when all pass. -/
def matchesConditions (conds : List PermissionCondition)
    (ctx : List (String × JValue)) : Bool :=
  conds.all (fun c => condOk c ctx)

/-- `PolicyEngine.matchesActor`: some matcher has a type equal to the
request actor type or the wildcard, and its pattern matches the id. -/
def matchesActor (actors : List ActorMatcher) (actorType : ActorType)
    (actorId : String) : Bool :=
  actors.any (fun a =>
    (a.type == actorType || a.type == ActorType.star) &&
      matchesPattern a.pattern actorId)

/-- `PolicyEngine.matchesResource`: some resource pattern matches. -/
def matchesResource (resources : List String) (resource : String) : Bool :=
  resources.any (fun pat => matchesPattern pat resource)

/-- `PolicyEngine.matchesAction`: the list holds `*` or the action. -/
def matchesAction (actions : List PermissionAction)
    (action : PermissionAction) : Bool :=
  actions.contains PermissionAction.star || actions.contains action

/-- `PolicyEngine.matchesRule`: actor, resource and action must match;
conditions are checked only when present and nonempty, against the
request context defaulted to the empty object. -/
def matchesRule (r : PolicyRule) (o : PermissionCheckOptions) : Bool :=
  matchesActor r.actors o.actorType o.actorId &&
  matchesResource r.resources o.resource &&
  matchesAction r.actions o.action &&
  (match r.conditions with
   | some cs =>
     if cs.length > 0 then matchesConditions cs (o.context.getD []) else true
   | none => true)

/-- State of a `PolicyEngine` instance: the policy map keyed by id, the
tenant index (`Map<string, Set<string>>`, a set iterating in insertion
order), and the counter that supplies fresh ids and creation times. -/
structure EngineState where
  policies : Nat → Option Policy
  tenantPolicies : String → List Nat
  nextId : Nat

/-- The freshly constructed `PolicyEngine`: both maps empty. -/
def initState : EngineState :=
  { policies := fun _ => none, tenantPolicies := fun _ => [], nextId := 0 }

/-- JS `Set.add`: appends the element unless already present. -/
def setAdd (l : List Nat) (x : Nat) : List Nat :=
  if x ∈ l then l else l ++ [x]

/-- `PolicyEngine.createPolicy`: builds the record with defaults
`priority = 0` and `enabled = true`, stores it and indexes it by tenant.
No validation of the rules is performed. -/
def createPolicy (s : EngineState) (tenantId name : String)
    (rules : List PolicyRule) (description : Option String)
    (priority : Option Int) (enabled : Option Bool) : Policy × EngineState :=
  let policy : Policy :=
    { id := s.nextId, tenantId := tenantId, name := name,
      description := description, rules := rules,
      priority := priority.getD 0, enabled := enabled.getD true,
      createdAt := s.nextId }
  (policy,
   { policies := fun i => if i = s.nextId then some policy else s.policies i,
     tenantPolicies := fun t =>
       if t = tenantId then setAdd (s.tenantPolicies tenantId) s.nextId
       else s.tenantPolicies t,
     nextId := s.nextId + 1 })

/-- The merge argument of `PolicyEngine.updatePolicy`:
`Partial<Omit<Policy, id | tenantId | createdAt>>` — absent fields are
`none` and leave the stored field unchanged under object spread. -/
structure PolicyUpdate where
  name : Option String := none
  description : Option (Option String) := none
  rules : Option (List PolicyRule) := none
  priority : Option Int := none
  enabled : Option Bool := none

/-- The object spread `{...policy, ...updates}` of
`PolicyEngine.updatePolicy`: present update fields override, while
`id`, `tenantId` and `createdAt` are never part of the updates. -/
def applyUpdate (policy : Policy) (u : PolicyUpdate) : Policy :=
  { id := policy.id, tenantId := policy.tenantId,
    name := u.name.getD policy.name,
    description := u.description.getD policy.description,
    rules := u.rules.getD policy.rules,
    priority := u.priority.getD policy.priority,
    enabled := u.enabled.getD policy.enabled,
    createdAt := policy.createdAt }

/-- `PolicyEngine.updatePolicy`: merges the updates over the stored
record, and returns `none` for a missing id. -/
def updatePolicy (s : EngineState) (id : Nat) (u : PolicyUpdate) :
    Option Policy × EngineState :=
  match s.policies id with
  | none => (none, s)
  | some policy =>
    (some (applyUpdate policy u),
     { s with policies := fun i =>
         if i = id then some (applyUpdate policy u) else s.policies i })

/-- `PolicyEngine.deletePolicy`: removes the record from the policy map
and from the tenant index, reporting whether it existed. -/
def deletePolicy (s : EngineState) (id : Nat) : Bool × EngineState :=
  match s.policies id with
  | none => (false, s)
  | some policy =>
    (true,
     { policies := fun i => if i = id then none else s.policies i,
       tenantPolicies := fun t =>
         if t = policy.tenantId then
           (s.tenantPolicies policy.tenantId).filter (fun i => i != id)
         else s.tenantPolicies t,
       nextId := s.nextId })

/-- Stable insertion step for sorting by priority descending: the new
element (earlier in the input) is placed before the first element whose
priority is not greater, so an earlier element always precedes a later
one of equal priority. -/
def insertDesc (p : Policy) : List Policy → List Policy
  | [] => [p]
  | q :: qs => if q.priority > p.priority then q :: insertDesc p qs else p :: q :: qs

/-- Stable sort by priority descending.  ECMAScript guarantees
`Array.prototype.sort` to be stable, and the output of a stable sort is
determined by the comparator, so this insertion sort is extensionally
the `.sort((a, b) => b.priority - a.priority)` call of
`PolicyEngine.listPolicies`. -/
def sortDesc (l : List Policy) : List Policy :=
  l.foldr insertDesc []

/-- `PolicyEngine.listPolicies`: reads the tenant index in insertion
order, resolves ids against the policy map (`map` + `filter(Boolean)` is
`filterMap`), and sorts by priority descending. -/
def listPolicies (s : EngineState) (tenantId : String) : List Policy :=
  sortDesc ((s.tenantPolicies tenantId).filterMap s.policies)

/-- `PolicyEngine.PolicyEvalResult`. -/
structure PolicyEvalResult where
  allowed : Bool
  reason : String
  matchedPolicy : Option Nat := none
  matchedRule : Option Nat := none

/-- The inner `for (let i = 0; ...)` of `PolicyEngine.evaluate`: scan
the rules of one policy, returning the result record of the first match. -/
def evalRulesFrom (o : PermissionCheckOptions) (p : Policy) :
    Nat → List PolicyRule → Option PolicyEvalResult
  | _, [] => none
  | i, r :: rs =>
    if matchesRule r o then
      some { allowed := r.effect == Effect.allow,
             reason := "Matched policy \"" ++ p.name ++ "\" rule " ++ toString (i + 1),
             matchedPolicy := some p.id, matchedRule := some i }
    else evalRulesFrom o p (i + 1) rs

/-- The outer `for (const policy of policies)` of
`PolicyEngine.evaluate`. -/
def evalPolicies (o : PermissionCheckOptions) :
    List Policy → Option PolicyEvalResult
  | [] => none
  | p :: ps =>
    match evalRulesFrom o p 0 p.rules with
    | some res => some res
    | none => evalPolicies o ps

/-- The local `policies` of `PolicyEngine.evaluate`:
`this.listPolicies(tenantId).filter((p) => p.enabled)`. -/
def enabledPolicies (s : EngineState) (tenantId : String) : List Policy :=
  (listPolicies s tenantId).filter (fun p => p.enabled)

/-- `PolicyEngine.evaluate`: filter the priority-sorted tenant policies
to the enabled ones; an empty list short-circuits, otherwise the first
matching rule decides, and exhaustion defaults to deny. -/
def evaluate (s : EngineState) (tenantId : String)
    (o : PermissionCheckOptions) : PolicyEvalResult :=
  if (enabledPolicies s tenantId).isEmpty then
    { allowed := false, reason := "No policies defined" }
  else
    match evalPolicies o (enabledPolicies s tenantId) with
    | some res => res
    | none => { allowed := false, reason := "No matching policy rule (default deny)" }

/-- Audit outcome, `success | denied | error` from `src/types.ts`. -/
inductive AuditResult where
  | success | denied | error
deriving DecidableEq

/-- Modelled from the spec: the repository re-exports an `AuditLogger`
whose source file is not under `src/` (only `PermissionAPI.ts` calls it
and `index.ts` re-exports it).  Spec section 4.4: `log(actorId,
actorType, action, resource, result, details?, tenantId?)` assigns an id
and timestamp and appends the entry to an append-only sequence.  The
opaque nanoid id and the timestamp are not referenced by any claim and
are omitted; the `details` map is flattened into the fields that
`PermissionAPI.check` and `checkWithDetails` actually put into it. -/
structure AuditEntry where
  actorId : String
  actorType : ActorType
  action : String
  resource : String
  result : AuditResult
  reason : String
  matchedPolicy : Option Nat
  matchedRule : Option Nat
  context : Option (List (String × JValue))
  tenantId : Option String

/-- The audit entry `PermissionAPI.check` logs for a given evaluation
result (its `details` carry reason, matchedPolicy and context, but not
matchedRule). -/
def mkAuditEntry (o : PermissionCheckOptions) (r : PolicyEvalResult)
    (tenantId : String) : AuditEntry :=
  { actorId := o.actorId, actorType := o.actorType,
    action := permActionToString o.action, resource := o.resource,
    result := if r.allowed then AuditResult.success else AuditResult.denied,
    reason := r.reason, matchedPolicy := r.matchedPolicy,
    matchedRule := none, context := o.context, tenantId := some tenantId }

/-- The audit entry `PermissionAPI.checkWithDetails` logs (its `details`
additionally carry matchedRule). -/
def mkAuditEntryDetailed (o : PermissionCheckOptions) (r : PolicyEvalResult)
    (tenantId : String) : AuditEntry :=
  { mkAuditEntry o r tenantId with matchedRule := r.matchedRule }

/-- State of a `PermissionAPI` instance: the policy engine, the two
configuration flags (defaults `defaultDeny = true`, `auditAll = true`),
and the audit log sequence.  `defaultDeny` is stored by the constructor
and never read afterwards. -/
structure PermissionState where
  engine : EngineState
  defaultDeny : Bool
  auditAll : Bool
  auditLog : List AuditEntry

/-- `PermissionAPI.check`: evaluates, logs when `auditAll` is set or the
result is a denial, and returns the boolean. -/
def check (st : PermissionState) (tenantId : String)
    (o : PermissionCheckOptions) : Bool × PermissionState :=
  let result := evaluate st.engine tenantId o
  (result.allowed,
   if st.auditAll || !result.allowed then
     { st with auditLog := st.auditLog ++ [mkAuditEntry o result tenantId] }
   else st)

/-- `PermissionAPI.checkWithDetails`: same logging rule, returns the
full evaluation result. -/
def checkWithDetails (st : PermissionState) (tenantId : String)
    (o : PermissionCheckOptions) : PolicyEvalResult × PermissionState :=
  let result := evaluate st.engine tenantId o
  (result,
   if st.auditAll || !result.allowed then
     { st with auditLog := st.auditLog ++ [mkAuditEntryDetailed o result tenantId] }
   else st)

/-- The key under which `PermissionAPI.checkMultiple` stores one
request: the template string `actorId:action:resource`. -/
def reqKey (o : PermissionCheckOptions) : String :=
  o.actorId ++ ":" ++ permActionToString o.action ++ ":" ++ o.resource

/-- JS `Map.set`: replaces the value in place when the key exists,
appends otherwise. -/
def mapSet (m : List (String × Bool)) (k : String) (v : Bool) :
    List (String × Bool) :=
  match m with
  | [] => [(k, v)]
  | (k', v') :: rest =>
    if k' = k then (k, v) :: rest else (k', v') :: mapSet rest k v

/-- JS `Map.get` on the model above. -/
def mapGet (m : List (String × Bool)) (k : String) : Option Bool :=
  match m with
  | [] => none
  | (k', v) :: rest => if k' = k then some v else mapGet rest k

/-- One iteration of the `for (const check of checks)` loop in
`PermissionAPI.checkMultiple`. -/
def cmStep (tenantId : String)
    (acc : List (String × Bool) × PermissionState)
    (c : PermissionCheckOptions) : List (String × Bool) × PermissionState :=
  let r := check acc.2 tenantId c
  (mapSet acc.1 (reqKey c) r.1, r.2)

/-- `PermissionAPI.checkMultiple`: sequentially checks every request,
keying results by `reqKey`. -/
def checkMultiple (st : PermissionState) (tenantId : String)
    (checks : List PermissionCheckOptions) :
    List (String × Bool) × PermissionState :=
  checks.foldl (cmStep tenantId) ([], st)

/-- The audit entry that one request of a batch contributes (if any):
the logging condition and entry of `check`, which depends only on the
engine and the `auditAll` flag, never on the log written so far. -/
def auditStep (e : EngineState) (auditAll : Bool) (tenantId : String)
    (o : PermissionCheckOptions) : Option AuditEntry :=
  let r := evaluate e tenantId o
  if auditAll || !r.allowed then some (mkAuditEntry o r tenantId) else none

/-- A store mutation, for reasoning about all reachable engine states. -/
inductive StoreOp where
  | create (tenantId name : String) (rules : List PolicyRule)
      (description : Option String) (priority : Option Int)
      (enabled : Option Bool)
  | update (id : Nat) (u : PolicyUpdate)
  | delete (id : Nat)

/-- Application of one store mutation. -/
def applyOp (s : EngineState) : StoreOp → EngineState
  | StoreOp.create t n rs d pr en => (createPolicy s t n rs d pr en).2
  | StoreOp.update i u => (updatePolicy s i u).2
  | StoreOp.delete i => (deletePolicy s i).2

/-- The engine state reached from a fresh engine by a sequence of
create, update and delete operations. -/
def runOps (ops : List StoreOp) : EngineState :=
  ops.foldl applyOp initState

/-- Relational semantics of the anchored regex that `matchesPattern`
builds: literal characters match themselves, and each `*` stands for a
possibly empty run of characters, none of which is a line terminator
(JS `.` without the dotAll flag). -/
inductive GlobSem : List Char → List Char → Prop where
  | nil : GlobSem [] []
  | lit (c : Char) {ps ss : List Char} (hc : c ≠ '*') :
      GlobSem ps ss → GlobSem (c :: ps) (c :: ss)
  | starNil {ps ss : List Char} : GlobSem ps ss → GlobSem ('*' :: ps) ss
  | starCons (c : Char) {ps ss : List Char} (hc : isLineTerm c = false) :
      GlobSem ('*' :: ps) ss → GlobSem ('*' :: ps) (c :: ss)

/-- Claim-side semantics of pattern matching as the specification words
it: every `*` stands for any possibly empty run of characters, with no
restriction at all on the characters of the run. -/
def specGlobFuel : Nat → List Char → List Char → Bool
  | 0, _, _ => false
  | _ + 1, [], ss => ss.isEmpty
  | n + 1, p :: ps, ss =>
    if p = '*' then
      specGlobFuel n ps ss ||
        (match ss with
         | [] => false
         | _ :: ss' => specGlobFuel n (p :: ps) ss')
    else
      match ss with
      | [] => false
      | c :: ss' => p == c && specGlobFuel n ps ss'

/-- Claim-side pattern matching on character lists. -/
def specGlobChars (ps ss : List Char) : Bool :=
  specGlobFuel (ps.length + ss.length + 1) ps ss

lemma globFuel_cons (n : Nat) (p : Char) (ps ss : List Char) :
    globFuel (n + 1) (p :: ps) ss =
      if p = '*' then
        globFuel n ps ss ||
          (match ss with
           | [] => false
           | c :: ss' => !isLineTerm c && globFuel n (p :: ps) ss')
      else
        match ss with
        | [] => false
        | c :: ss' => p == c && globFuel n ps ss' := rfl

lemma globFuel_sound : ∀ (n : Nat) (ps ss : List Char),
    globFuel n ps ss = true → GlobSem ps ss := by
  intro n
  induction n with
  | zero => intro ps ss h; simp [globFuel] at h
  | succ m ih =>
    intro ps ss h
    match ps with
    | [] =>
      have he : ss.isEmpty = true := h
      rw [List.isEmpty_iff] at he
      subst he
      exact GlobSem.nil
    | p :: ps' =>
      by_cases hp : p = '*'
      · subst hp
        rw [globFuel_cons, if_pos rfl] at h
        cases ss with
        | nil =>
          simp only [Bool.or_false] at h
          exact GlobSem.starNil (ih _ _ h)
        | cons c ss' =>
          rcases Bool.or_eq_true_iff.mp h with h1 | h2
          · exact GlobSem.starNil (ih _ _ h1)
          · rcases Bool.and_eq_true_iff.mp h2 with ⟨hc, hrec⟩
            have hcf : isLineTerm c = false := by simpa using hc
            exact GlobSem.starCons c hcf (ih _ _ hrec)
      · rw [globFuel_cons, if_neg hp] at h
        cases ss with
        | nil => exact absurd h (by simp)
        | cons c ss' =>
          rcases Bool.and_eq_true_iff.mp h with ⟨hc, hrec⟩
          have hc' : p = c := by exact_mod_cast beq_iff_eq.mp hc
          subst hc'
          exact GlobSem.lit p hp (ih _ _ hrec)

lemma globSem_fuel {ps ss : List Char} (h : GlobSem ps ss) :
    ∀ n, ps.length + ss.length + 1 ≤ n → globFuel n ps ss = true := by
  induction h with
  | nil =>
    intro n hn
    match n, hn with
    | m + 1, _ => rfl
  | lit c hc d ih =>
    intro n hn
    match n, hn with
    | m + 1, hn =>
      simp only [List.length_cons] at hn
      rw [globFuel_cons, if_neg hc]
      simp only [beq_self_eq_true, Bool.true_and]
      exact ih m (by omega)
  | starNil d ih =>
    intro n hn
    match n, hn with
    | m + 1, hn =>
      simp only [List.length_cons] at hn
      rw [globFuel_cons, if_pos rfl]
      have := ih m (by omega)
      rw [this]
      rfl
  | starCons c hc d ih =>
    intro n hn
    match n, hn with
    | m + 1, hn =>
      simp only [List.length_cons] at hn
      rw [globFuel_cons, if_pos rfl]
      have := ih m (by simp only [List.length_cons]; omega)
      simp [this, hc]

/-- The executable matcher decides exactly the relational semantics. -/
lemma globChars_iff_globSem (ps ss : List Char) :
    globChars ps ss = true ↔ GlobSem ps ss :=
  ⟨globFuel_sound _ ps ss, fun h => globSem_fuel h _ (Nat.le_refl _)⟩

/-- The seven operator strings the condition switch recognises. -/
def knownOperators : List String :=
  ["eq", "neq", "in", "nin", "gt", "lt", "contains"]

lemma condOk_unknown (c : PermissionCondition)
    (ctx : List (String × JValue)) (h : c.operator ∉ knownOperators) :
    condOk c ctx = true := by
  simp only [knownOperators, List.mem_cons, List.not_mem_nil, or_false] at h
  push_neg at h
  obtain ⟨h1, h2, h3, h4, h5, h6, h7⟩ := h
  simp only [condOk, if_neg h1, if_neg h2, if_neg h3, if_neg h4, if_neg h5,
    if_neg h6, if_neg h7]

/-- A concrete condition whose operator is not among the seven. -/
def strangeCond : PermissionCondition :=
  { field := "x", operator := "matches", value := JValue.num 1 }

/-- A rule that carries only `strangeCond` as a condition and otherwise
matches any user request. -/
def strangeRule : PolicyRule :=
  { effect := Effect.allow,
    actors := [{ type := ActorType.user, pattern := "*" }],
    resources := ["*"], actions := [PermissionAction.star],
    conditions := some [strangeCond] }

/-- A concrete user request; its context does not even bind the field
`x` that `strangeCond` mentions. -/
def strangeReq : PermissionCheckOptions :=
  { actorId := "u1", actorType := ActorType.user, resource := "r",
    action := PermissionAction.read }

/-- C2 counterexample: the claim says a rule carrying a condition with
an unknown operator never matches any request.  In the code the
`switch (condition.operator)` has no `default` case, so the loop simply
skips such a condition: the concrete rule `strangeRule`, whose only
condition uses the unsupported operator `"matches"`, matches the
concrete request `strangeReq`. -/
theorem condOk_unknown_counterexample :
    strangeCond.operator ∉ knownOperators ∧
      matchesRule strangeRule strangeReq = true := by
  constructor
  · decide
  · rfl

/-- C2 (amended): a condition whose operator is not one of `eq`, `neq`,
`in`, `nin`, `gt`, `lt`, `contains` imposes no constraint at all — the
switch skips it (fail open), so condition evaluation treats it as
matching for every context, and dropping it from a condition list never
changes the outcome. -/
theorem condOk_unknown_skipped (c : PermissionCondition)
    (ctx : List (String × JValue)) (h : c.operator ∉ knownOperators) :
    condOk c ctx = true ∧
      ∀ conds, matchesConditions (c :: conds) ctx = matchesConditions conds ctx := by
  refine ⟨condOk_unknown c ctx h, fun conds => ?_⟩
  simp only [matchesConditions, List.all_cons, condOk_unknown c ctx h,
    Bool.true_and]

/-- C2 witness: the amended theorem applied to the concrete condition
with operator `"between"`. -/
theorem condOk_unknown_skipped_witness :
    condOk { field := "y", operator := "between", value := JValue.num 3 } [] = true ∧
      ∀ conds,
        matchesConditions ({ field := "y", operator := "between", value := JValue.num 3 } :: conds) [] =
          matchesConditions conds [] :=
  condOk_unknown_skipped
    { field := "y", operator := "between", value := JValue.num 3 } [] (by decide)

/-- C5 counterexample: the claim says a `gt` condition matches only
when both sides are numbers AND the strict comparison holds.  `NaN` is
of JS type number, so with context score `NaN` the `typeof` guard of
the `gt` arm passes, and the arm then tests `NaN <= 10`, which is
false — so the code does NOT return false and the condition MATCHES,
although the strict comparison `NaN > 10` is false. -/
theorem condOk_gt_nan_counterexample :
    isNumber JValue.nan = true ∧
    jsNumGt JValue.nan (JValue.num 10) = false ∧
    condOk { field := "score", operator := "gt", value := JValue.num 10 }
      [("score", JValue.nan)] = true := by
  refine ⟨rfl, rfl, by decide⟩

/-- C5 (amended): a `gt` (resp. `lt`) condition is non-matching unless
both the context value at the condition field and the condition value
are of JS type number (`NaN` included); when both sides are finite
numbers it matches exactly when the strict comparison holds, but when
either side is `NaN` it always matches, because the source tests the
NEGATED non-strict comparison (`value <= cond`, resp. `value >= cond`)
and every comparison with `NaN` is false.  A missing context field
reads as `undefined` and fails the `typeof` test (non-match, no error —
`condOk` is total).  In particular `gt 10` rejects a context score of
`5`, accepts `15`, rejects an absent score, and accepts `NaN`. -/
theorem condOk_gt_lt_numeric :
    (∀ (f : String) (v : JValue) (ctx : List (String × JValue)),
      condOk { field := f, operator := "gt", value := v } ctx =
        match ctxGet ctx f, v with
        | JValue.num a, JValue.num b => decide (a > b)
        | JValue.nan, JValue.num _ => true
        | JValue.num _, JValue.nan => true
        | JValue.nan, JValue.nan => true
        | _, _ => false) ∧
    (∀ (f : String) (v : JValue) (ctx : List (String × JValue)),
      condOk { field := f, operator := "lt", value := v } ctx =
        match ctxGet ctx f, v with
        | JValue.num a, JValue.num b => decide (a < b)
        | JValue.nan, JValue.num _ => true
        | JValue.num _, JValue.nan => true
        | JValue.nan, JValue.nan => true
        | _, _ => false) ∧
    condOk { field := "score", operator := "gt", value := JValue.num 10 }
      [("score", JValue.num 5)] = false ∧
    condOk { field := "score", operator := "gt", value := JValue.num 10 }
      [("score", JValue.num 15)] = true ∧
    condOk { field := "score", operator := "gt", value := JValue.num 10 }
      [] = false ∧
    condOk { field := "score", operator := "gt", value := JValue.num 10 }
      [("score", JValue.nan)] = true := by
  refine ⟨fun f v ctx => ?_, fun f v ctx => ?_, by decide, by decide,
    by decide, by decide⟩
  · cases hx : ctxGet ctx f <;> cases v <;>
      simp [condOk, hx, isNumber, jsNumLe, ← decide_not, not_le]
  · cases hx : ctxGet ctx f <;> cases v <;>
      simp [condOk, hx, isNumber, jsNumGe, ← decide_not, not_le]

/-- C4 counterexample: the claim describes `*` as standing for any
(possibly empty) run of characters.  The code compiles `*` to `.` `*`
in a regex without the dotAll flag, and JS `.` does not match line
terminators: on the subject `"task:\n"` the claim-side semantics
(`specGlobChars`, stars match arbitrary runs) matches the pattern
`"task:*"`, but `matchesPattern` returns `false`. -/
theorem matchesPattern_newline_counterexample :
    specGlobChars "task:*".data "task:\n".data = true ∧
      matchesPattern "task:*" "task:\n" = false := by
  constructor
  · decide
  · decide

/-- C4 (amended): the literal pattern `"*"` short-circuits to `true` on
every subject (even one containing line terminators); any other pattern
matches exactly the subjects described by `GlobSem`: the whole subject
is matched, non-`*` pattern characters (all regex metacharacters being
escaped) match themselves literally, and each `*` stands for any
possibly empty run of non-line-terminator characters.  The listed
examples hold as stated: `"task:*"` matches `"task:"`, `"task:123"` and
`"task:123:sub"` and rejects `"tasks:1"` and `"xtask:1"`. -/
theorem matchesPattern_glob :
    (∀ s : String, matchesPattern "*" s = true) ∧
    (∀ p s : String, p ≠ "*" →
      (matchesPattern p s = true ↔ GlobSem p.data s.data)) ∧
    matchesPattern "task:*" "task:" = true ∧
    matchesPattern "task:*" "task:123" = true ∧
    matchesPattern "task:*" "task:123:sub" = true ∧
    matchesPattern "task:*" "tasks:1" = false ∧
    matchesPattern "task:*" "xtask:1" = false := by
  refine ⟨fun s => rfl, fun p s hp => ?_, by decide, by decide, by decide,
    by decide, by decide⟩
  rw [matchesPattern, if_neg hp]
  exact globChars_iff_globSem p.data s.data

/-- C4 witness: the amended characterisation applied at the concrete
pattern `"task:*"` and subject `"task:99"`. -/
theorem matchesPattern_glob_witness :
    matchesPattern "task:*" "task:99" = true ↔
      GlobSem "task:*".data "task:99".data :=
  matchesPattern_glob.2.1 "task:*" "task:99" (by decide)

/-- The rules of one policy paired with their indices, starting at `i`:
the inner scan order of `PolicyEngine.evaluate`. -/
def enumRulesFrom (p : Policy) : Nat → List PolicyRule → List (Policy × Nat × PolicyRule)
  | _, [] => []
  | i, r :: rs => (p, i, r) :: enumRulesFrom p (i + 1) rs

/-- All rules of a policy list in scan order: policies in list order
(priority descending as produced by `listPolicies`), and within each
policy its rules in array order. -/
def flatRules : List Policy → List (Policy × Nat × PolicyRule)
  | [] => []
  | p :: ps => enumRulesFrom p 0 p.rules ++ flatRules ps

/-- The evaluation result produced for a matched (policy, index, rule)
triple. -/
def resultOf (y : Policy × Nat × PolicyRule) : PolicyEvalResult :=
  { allowed := y.2.2.effect == Effect.allow,
    reason := "Matched policy \"" ++ y.1.name ++ "\" rule " ++ toString (y.2.1 + 1),
    matchedPolicy := some y.1.id, matchedRule := some y.2.1 }

/-- The first (policy, index, rule) triple in scan order whose rule
matches the request. -/
def firstMatch (pols : List Policy) (o : PermissionCheckOptions) :
    Option (Policy × Nat × PolicyRule) :=
  (flatRules pols).find? (fun y => matchesRule y.2.2 o)

lemma find?_append' {α : Type} (f : α → Bool) (l₁ l₂ : List α) :
    (l₁ ++ l₂).find? f =
      match l₁.find? f with
      | some a => some a
      | none => l₂.find? f := by
  induction l₁ with
  | nil => rfl
  | cons a as ih =>
    by_cases h : f a
    · simp [List.find?_cons_of_pos _ h]
    · simp only [List.cons_append, List.find?_cons_of_neg _ h, ih]

lemma evalRulesFrom_eq (o : PermissionCheckOptions) (p : Policy) :
    ∀ (rs : List PolicyRule) (i : Nat),
      evalRulesFrom o p i rs =
        ((enumRulesFrom p i rs).find? (fun y => matchesRule y.2.2 o)).map resultOf := by
  intro rs
  induction rs with
  | nil => intro i; rfl
  | cons r rs ih =>
    intro i
    simp only [evalRulesFrom, enumRulesFrom, List.find?]
    by_cases h : matchesRule r o
    · simp [h, resultOf]
    · simp [h, ih]

lemma evalPolicies_eq (o : PermissionCheckOptions) :
    ∀ pols : List Policy,
      evalPolicies o pols = (firstMatch pols o).map resultOf := by
  intro pols
  induction pols with
  | nil => rfl
  | cons p ps ih =>
    simp only [evalPolicies, evalRulesFrom_eq, firstMatch, flatRules,
      find?_append']
    cases h : (enumRulesFrom p 0 p.rules).find? (fun y => matchesRule y.2.2 o) with
    | some y => simp
    | none => simpa [firstMatch] using ih

/-- C1: `evaluate` returns the no-policies result exactly when the
tenant has no enabled policies; otherwise it scans the enabled policies
in the order produced by `listPolicies` (priority descending) and,
within each policy, the rules in array order, and the first matching
rule yields `allowed = (effect == allow)`, the reason string naming the
policy and the 1-based rule number, the matched policy id and the
matched rule index; if nothing matches it returns the default-deny
result. -/
theorem evaluate_first_match (s : EngineState) (t : String)
    (o : PermissionCheckOptions) :
    evaluate s t o =
      (if (enabledPolicies s t).isEmpty then
        { allowed := false, reason := "No policies defined",
          matchedPolicy := none, matchedRule := none }
      else
        match firstMatch (enabledPolicies s t) o with
        | some y =>
          { allowed := y.2.2.effect == Effect.allow,
            reason := "Matched policy \"" ++ y.1.name ++ "\" rule " ++
              toString (y.2.1 + 1),
            matchedPolicy := some y.1.id, matchedRule := some y.2.1 }
        | none =>
          { allowed := false, reason := "No matching policy rule (default deny)",
            matchedPolicy := none, matchedRule := none }) := by
  unfold evaluate
  cases h : (enabledPolicies s t).isEmpty with
  | true => rfl
  | false =>
    simp only [Bool.false_eq_true, if_false, evalPolicies_eq]
    cases hf : firstMatch (enabledPolicies s t) o with
    | some y => rfl
    | none => rfl

/-- C3: `check` writes exactly one audit entry, with result `denied`,
whenever the evaluation result is not allowed — the logging condition
`auditAll || !result.allowed` holds for every denial regardless of the
configured `auditAll` — and when `auditAll` is `false` an allowed check
leaves the audit log untouched. -/
theorem check_audits_denials (st : PermissionState) (t : String)
    (o : PermissionCheckOptions) :
    ((check st t o).1 = false →
      ∃ e, (check st t o).2.auditLog = st.auditLog ++ [e] ∧
        e.result = AuditResult.denied) ∧
    (st.auditAll = false → (check st t o).1 = true →
      (check st t o).2.auditLog = st.auditLog) := by
  constructor
  · intro h
    have h' : (evaluate st.engine t o).allowed = false := h
    refine ⟨mkAuditEntry o (evaluate st.engine t o) t, ?_, ?_⟩
    · simp [check, h']
    · simp [mkAuditEntry, h']
  · intro ha h
    have h' : (evaluate st.engine t o).allowed = true := h
    simp [check, h', ha]

/-- An allow-everything rule for user requests, used by witnesses. -/
def allowAllRule : PolicyRule :=
  { effect := Effect.allow,
    actors := [{ type := ActorType.user, pattern := "*" }],
    resources := ["*"], actions := [PermissionAction.star] }

/-- A `PermissionAPI` with no policies and `auditAll = false`. -/
def emptyApiState : PermissionState :=
  { engine := initState, defaultDeny := true, auditAll := false, auditLog := [] }

/-- A `PermissionAPI` holding one allow-everything policy for tenant
`"ta"`, with `auditAll = false`. -/
def allowApiState : PermissionState :=
  { engine := (createPolicy initState "ta" "All" [allowAllRule] none none none).2,
    defaultDeny := true, auditAll := false, auditLog := [] }

/-- A concrete user read request. -/
def witnessReq : PermissionCheckOptions :=
  { actorId := "u", actorType := ActorType.user, resource := "doc:1",
    action := PermissionAction.read }

/-- C3 witness: a denied check on the empty store appends one denied
entry even though `auditAll` is `false`, and an allowed check with
`auditAll = false` appends nothing. -/
theorem check_audits_denials_witness :
    (∃ e, (check emptyApiState "t" witnessReq).2.auditLog =
        emptyApiState.auditLog ++ [e] ∧ e.result = AuditResult.denied) ∧
    (check allowApiState "ta" witnessReq).2.auditLog = allowApiState.auditLog :=
  ⟨(check_audits_denials emptyApiState "t" witnessReq).1 rfl,
   (check_audits_denials allowApiState "ta" witnessReq).2 rfl rfl⟩

/-- C8: two `PermissionAPI` configurations that differ only in the
`defaultDeny` flag behave identically: `evaluate` does not consume the
flag at all, and `check` and `checkWithDetails` return the same
allowed/reason results and write the same audit log for any engine
state and request — the flag is stored by the constructor and never
read, so the no-match outcome is deny regardless of its value. -/
theorem defaultDeny_never_branches (e : EngineState) (log : List AuditEntry)
    (a d1 d2 : Bool) (t : String) (o : PermissionCheckOptions) :
    (check ⟨e, d1, a, log⟩ t o).1 = (check ⟨e, d2, a, log⟩ t o).1 ∧
    (check ⟨e, d1, a, log⟩ t o).2.auditLog =
      (check ⟨e, d2, a, log⟩ t o).2.auditLog ∧
    (checkWithDetails ⟨e, d1, a, log⟩ t o).1 =
      (checkWithDetails ⟨e, d2, a, log⟩ t o).1 ∧
    (checkWithDetails ⟨e, d1, a, log⟩ t o).2.auditLog =
      (checkWithDetails ⟨e, d2, a, log⟩ t o).2.auditLog := by
  refine ⟨rfl, ?_, rfl, ?_⟩ <;>
    (by_cases h : (a || !(evaluate e t o).allowed) = true <;>
      simp [check, checkWithDetails, h])

/-- Rules whose only condition uses the unsupported operator
`"almost"`. -/
def unvalidatedRules : List PolicyRule :=
  [{ effect := Effect.allow,
     actors := [{ type := ActorType.user, pattern := "*" }],
     resources := ["*"], actions := [PermissionAction.star],
     conditions := some [{ field := "x", operator := "almost",
                           value := JValue.num 3 }] }]

/-- C9 counterexample: the claim says `createPolicy` rejects malformed
rule/condition input (such as an unsupported operator) with a
`ConfigurationError`.  The code performs no validation and has no error
path at all — its return type is a plain `Policy`.  Creating a policy
whose only condition uses the unsupported operator `"almost"` succeeds:
the policy is stored verbatim in the engine state. -/
theorem createPolicy_no_validation_counterexample :
    (createPolicy initState "t1" "Bad" unvalidatedRules none none none).2.policies 0 =
      some (createPolicy initState "t1" "Bad" unvalidatedRules none none none).1 ∧
    (createPolicy initState "t1" "Bad" unvalidatedRules none none none).1.rules =
      unvalidatedRules := ⟨rfl, rfl⟩

/-- C9 (amended): `createPolicy` performs no validation whatsoever —
every input, including rules whose conditions reference unsupported
operators, is accepted, stored verbatim under the fresh id and indexed
for its tenant; no `ConfigurationError` exists in the code, and
evaluation is likewise total (an unsupported operator is skipped there,
never an error). -/
theorem createPolicy_accepts_everything (s : EngineState) (t n : String)
    (rules : List PolicyRule) (d : Option String) (pr : Option Int)
    (en : Option Bool) :
    (createPolicy s t n rules d pr en).2.policies s.nextId =
      some (createPolicy s t n rules d pr en).1 ∧
    (createPolicy s t n rules d pr en).1.rules = rules ∧
    (createPolicy s t n rules d pr en).1.tenantId = t ∧
    s.nextId ∈ (createPolicy s t n rules d pr en).2.tenantPolicies t := by
  refine ⟨by simp [createPolicy], rfl, rfl, ?_⟩
  simp only [createPolicy, if_pos rfl, setAdd]
  by_cases h : s.nextId ∈ s.tenantPolicies t
  · simp [h]
  · simp [h]

lemma mapGet_mapSet (m : List (String × Bool)) (k0 k : String) (v : Bool) :
    mapGet (mapSet m k0 v) k = if k = k0 then some v else mapGet m k := by
  induction m with
  | nil =>
    by_cases h : k = k0
    · simp [mapSet, mapGet, h]
    · have h' : ¬k0 = k := fun hh => h hh.symm
      simp [mapSet, mapGet, h, h']
  | cons kv rest ih =>
    obtain ⟨k', v'⟩ := kv
    by_cases h1 : k' = k0
    · subst h1
      by_cases h2 : k = k'
      · simp [mapSet, mapGet, h2]
      · have h2' : ¬k' = k := fun hh => h2 hh.symm
        simp [mapSet, mapGet, h2, h2']
    · by_cases h2 : k' = k
      · have h3 : ¬k = k0 := fun hh => h1 (h2.trans hh)
        simp [mapSet, mapGet, h1, h2, h3]
      · simp [mapSet, mapGet, h1, h2, ih]

lemma check_state (e : EngineState) (d a : Bool) (log : List AuditEntry)
    (t : String) (o : PermissionCheckOptions) :
    (check ⟨e, d, a, log⟩ t o).2 =
      ⟨e, d, a, log ++ (auditStep e a t o).toList⟩ := by
  by_cases h : (a || !(evaluate e t o).allowed) = true <;>
    simp [check, auditStep, h]

lemma checkMultiple_loop (e : EngineState) (d a : Bool) (t : String) :
    ∀ (checks : List PermissionCheckOptions) (m : List (String × Bool))
      (log : List AuditEntry),
      (checks.foldl (cmStep t) (m, ⟨e, d, a, log⟩)).2.auditLog =
          log ++ checks.filterMap (auditStep e a t) ∧
      ∀ k, mapGet (checks.foldl (cmStep t) (m, ⟨e, d, a, log⟩)).1 k =
        (match checks.reverse.find? (fun c => reqKey c == k) with
         | some c => some ((evaluate e t c).allowed)
         | none => mapGet m k) := by
  intro checks
  induction checks with
  | nil =>
    intro m log
    exact ⟨by simp, fun k => by simp⟩
  | cons c rest ih =>
    intro m log
    have hstep : cmStep t (m, ⟨e, d, a, log⟩) c =
        (mapSet m (reqKey c) ((evaluate e t c).allowed),
         ⟨e, d, a, log ++ (auditStep e a t c).toList⟩) := by
      show (mapSet m (reqKey c) ((check (⟨e, d, a, log⟩ : PermissionState) t c).1),
            (check (⟨e, d, a, log⟩ : PermissionState) t c).2) = _
      rw [check_state]
      rfl
    constructor
    · rw [List.foldl_cons, hstep]
      rcases ih (mapSet m (reqKey c) ((evaluate e t c).allowed))
        (log ++ (auditStep e a t c).toList) with ⟨h1, _⟩
      rw [h1, List.append_assoc]
      congr 1
      cases hs : auditStep e a t c <;> simp [List.filterMap_cons, hs]
    · intro k
      rw [List.foldl_cons, hstep]
      rcases ih (mapSet m (reqKey c) ((evaluate e t c).allowed))
        (log ++ (auditStep e a t c).toList) with ⟨_, h2⟩
      rw [h2 k, List.reverse_cons, find?_append']
      cases hf : rest.reverse.find? (fun c' => reqKey c' == k) with
      | some c' => rfl
      | none =>
        rw [mapGet_mapSet]
        by_cases hk : reqKey c = k
        · simp [List.find?, hk]
        · have hk' : ¬k = reqKey c := fun hh => hk hh.symm
          have hb : (reqKey c == k) = false := by
            simpa using hk
          simp [List.find?, hb, hk']

/-- C10: `checkMultiple` keys its result map by the template string
`actorId:action:resource` (`reqKey`), so for every key the map holds
the allowed verdict of the LAST request in the batch with that key —
requests differing only in `actorType` or `context` share a key and
collapse into one entry — while every request of the batch is still
evaluated and audited individually, in batch order, under the logging
rule of `check`. -/
theorem checkMultiple_key_collapse (st : PermissionState) (t : String)
    (checks : List PermissionCheckOptions) :
    (∀ k, mapGet (checkMultiple st t checks).1 k =
      (match checks.reverse.find? (fun c => reqKey c == k) with
       | some c => some ((evaluate st.engine t c).allowed)
       | none => none)) ∧
    (checkMultiple st t checks).2.auditLog =
      st.auditLog ++ checks.filterMap (auditStep st.engine st.auditAll t) := by
  obtain ⟨e, d, a, log⟩ := st
  rcases checkMultiple_loop e d a t checks [] log with ⟨h1, h2⟩
  refine ⟨fun k => ?_, h1⟩
  rw [checkMultiple] at *
  rw [h2 k]
  cases checks.reverse.find? (fun c => reqKey c == k) <;> rfl

/-- The intended order of a tenant listing: strictly higher priority
first, and among equal priorities the earlier-created policy first. -/
def listedBefore (a b : Policy) : Prop :=
  b.priority < a.priority ∨
    (a.priority = b.priority ∧ a.createdAt < b.createdAt)

lemma insertDesc_perm (p : Policy) (l : List Policy) :
    (insertDesc p l).Perm (p :: l) := by
  induction l with
  | nil => exact List.Perm.refl _
  | cons q qs ih =>
    show (if q.priority > p.priority then q :: insertDesc p qs
          else p :: q :: qs).Perm (p :: q :: qs)
    by_cases h : q.priority > p.priority
    · rw [if_pos h]
      exact (ih.cons q).trans (List.Perm.swap p q qs)
    · rw [if_neg h]

lemma mem_insertDesc {x p : Policy} {l : List Policy} :
    x ∈ insertDesc p l ↔ x = p ∨ x ∈ l := by
  rw [(insertDesc_perm p l).mem_iff]
  simp

lemma sortDesc_perm (l : List Policy) : (sortDesc l).Perm l := by
  induction l with
  | nil => exact List.Perm.refl _
  | cons p ps ih =>
    show (insertDesc p (sortDesc ps)).Perm (p :: ps)
    exact (insertDesc_perm p (sortDesc ps)).trans (ih.cons p)

lemma pairwise_insertDesc {p : Policy} {l : List Policy}
    (hcr : ∀ x ∈ l, p.createdAt < x.createdAt)
    (h : l.Pairwise listedBefore) :
    (insertDesc p l).Pairwise listedBefore := by
  induction l with
  | nil => simp [insertDesc]
  | cons q qs ih =>
    rcases List.pairwise_cons.mp h with ⟨hq, hqs⟩
    show (if q.priority > p.priority then q :: insertDesc p qs
          else p :: q :: qs).Pairwise listedBefore
    by_cases hpr : q.priority > p.priority
    · rw [if_pos hpr]
      apply List.pairwise_cons.mpr
      constructor
      · intro x hx
        rcases mem_insertDesc.mp hx with rfl | hx'
        · exact Or.inl hpr
        · exact hq x hx'
      · exact ih (fun x hx => hcr x (List.mem_cons_of_mem q hx)) hqs
    · rw [if_neg hpr]
      have hle : q.priority ≤ p.priority := not_lt.mp hpr
      apply List.pairwise_cons.mpr
      refine ⟨fun x hx => ?_, h⟩
      have hxle : x.priority ≤ p.priority := by
        rcases hx with _ | hx'
        · exact hle
        · rcases hq x (by assumption) with hlt | ⟨heq, _⟩
          · exact le_trans (le_of_lt hlt) hle
          · exact le_trans (le_of_eq heq.symm) hle
      have hcx : p.createdAt < x.createdAt := hcr x hx
      rcases lt_or_eq_of_le hxle with hlt | heq
      · exact Or.inl hlt
      · exact Or.inr ⟨heq.symm, hcx⟩

lemma pairwise_sortDesc {l : List Policy}
    (h : l.Pairwise (fun a b => a.createdAt < b.createdAt)) :
    (sortDesc l).Pairwise listedBefore := by
  induction l with
  | nil => simp [sortDesc]
  | cons p ps ih =>
    rcases List.pairwise_cons.mp h with ⟨hp, hps⟩
    show (insertDesc p (sortDesc ps)).Pairwise listedBefore
    apply pairwise_insertDesc
    · intro x hx
      exact hp x (((sortDesc_perm ps).mem_iff).mp hx)
    · exact ih hps

/-- Invariant of every reachable engine state: each tenant index is
strictly increasing (ids are appended in creation order and never
reordered), every indexed id is below the fresh-id counter, every
policy reachable through a tenant index belongs to that tenant and
carries its id as creation time, and every stored policy is indexed
under its own tenant. -/
structure StoreInv (s : EngineState) : Prop where
  chain : ∀ t, (s.tenantPolicies t).Pairwise (· < ·)
  bound : ∀ t i, i ∈ s.tenantPolicies t → i < s.nextId
  owner : ∀ t i, i ∈ s.tenantPolicies t → ∀ p, s.policies i = some p →
    p.tenantId = t ∧ p.createdAt = i
  complete : ∀ i p, s.policies i = some p → i ∈ s.tenantPolicies p.tenantId

lemma storeInv_init : StoreInv initState := by
  refine ⟨?_, ?_, ?_, ?_⟩ <;> simp [initState]

lemma create_tenantPolicies (s : EngineState) (t n : String)
    (rules : List PolicyRule) (d : Option String) (pr : Option Int)
    (en : Option Bool) (t' : String) :
    (createPolicy s t n rules d pr en).2.tenantPolicies t' =
      if t' = t then setAdd (s.tenantPolicies t) s.nextId
      else s.tenantPolicies t' := rfl

lemma create_policies (s : EngineState) (t n : String)
    (rules : List PolicyRule) (d : Option String) (pr : Option Int)
    (en : Option Bool) (i : Nat) :
    (createPolicy s t n rules d pr en).2.policies i =
      if i = s.nextId then some (createPolicy s t n rules d pr en).1
      else s.policies i := rfl

lemma storeInv_create (s : EngineState) (hInv : StoreInv s) (t n : String)
    (rules : List PolicyRule) (d : Option String) (pr : Option Int)
    (en : Option Bool) : StoreInv (createPolicy s t n rules d pr en).2 := by
  have hfresh : s.nextId ∉ s.tenantPolicies t :=
    fun h => lt_irrefl _ (hInv.bound t _ h)
  have hnext : (createPolicy s t n rules d pr en).2.nextId = s.nextId + 1 := rfl
  refine ⟨?_, ?_, ?_, ?_⟩
  · intro t'
    rw [create_tenantPolicies]
    by_cases ht : t' = t
    · rw [if_pos ht, setAdd, if_neg hfresh]
      apply List.pairwise_append.mpr
      refine ⟨hInv.chain t, by simp, ?_⟩
      intro a ha b hb
      rw [List.mem_singleton.mp hb]
      exact hInv.bound t a ha
    · rw [if_neg ht]
      exact hInv.chain t'
  · intro t' i h
    rw [create_tenantPolicies] at h
    rw [hnext]
    by_cases ht : t' = t
    · rw [if_pos ht, setAdd, if_neg hfresh] at h
      rcases List.mem_append.mp h with h' | h'
      · exact Nat.lt_succ_of_lt (hInv.bound t i h')
      · rw [List.mem_singleton.mp h']
        exact Nat.lt_succ_self _
    · rw [if_neg ht] at h
      exact Nat.lt_succ_of_lt (hInv.bound t' i h)
  · intro t' i h p hp
    rw [create_tenantPolicies] at h
    rw [create_policies] at hp
    by_cases hi : i = s.nextId
    · subst hi
      rw [if_pos rfl] at hp
      have hpeq : p = (createPolicy s t n rules d pr en).1 :=
        (Option.some.inj hp).symm
      by_cases ht : t' = t
      · subst hpeq
        exact ⟨ht.symm ▸ rfl, rfl⟩
      · exfalso
        rw [if_neg ht] at h
        exact lt_irrefl _ (hInv.bound t' _ h)
    · rw [if_neg hi] at hp
      by_cases ht : t' = t
      · rw [if_pos ht, setAdd, if_neg hfresh] at h
        rcases List.mem_append.mp h with h' | h'
        · have := hInv.owner t i h' p hp
          exact ⟨this.1.trans ht.symm, this.2⟩
        · exact absurd (List.mem_singleton.mp h') hi
      · rw [if_neg ht] at h
        exact hInv.owner t' i h p hp
  · intro i p hp
    rw [create_policies] at hp
    rw [create_tenantPolicies]
    by_cases hi : i = s.nextId
    · subst hi
      rw [if_pos rfl] at hp
      have hpeq : p = (createPolicy s t n rules d pr en).1 :=
        (Option.some.inj hp).symm
      subst hpeq
      have htid : (createPolicy s t n rules d pr en).1.tenantId = t := rfl
      rw [htid, if_pos rfl, setAdd, if_neg hfresh]
      exact List.mem_append.mpr (Or.inr (List.mem_singleton.mpr rfl))
    · rw [if_neg hi] at hp
      have hmem := hInv.complete i p hp
      by_cases ht : p.tenantId = t
      · rw [if_pos ht, setAdd]
        rw [ht] at hmem
        by_cases hm : s.nextId ∈ s.tenantPolicies t
        · rw [if_pos hm]; exact hmem
        · rw [if_neg hm]; exact List.mem_append.mpr (Or.inl hmem)
      · rw [if_neg ht]
        exact hmem

lemma storeInv_update (s : EngineState) (hInv : StoreInv s) (id : Nat)
    (u : PolicyUpdate) : StoreInv (updatePolicy s id u).2 := by
  cases hp : s.policies id with
  | none =>
    have : (updatePolicy s id u).2 = s := by simp [updatePolicy, hp]
    rw [this]; exact hInv
  | some policy =>
    have h2 : (updatePolicy s id u).2 =
        { s with policies := fun i =>
            if i = id then some (applyUpdate policy u) else s.policies i } := by
      simp [updatePolicy, hp]
    rw [h2]
    refine ⟨hInv.chain, hInv.bound, ?_, ?_⟩
    · intro t' i h p hpi
      dsimp only at h hpi ⊢
      by_cases hi : i = id
      · subst hi
        rw [if_pos rfl] at hpi
        have hpeq : p = applyUpdate policy u := (Option.some.inj hpi).symm
        subst hpeq
        have := hInv.owner t' i h policy hp
        exact ⟨this.1, this.2⟩
      · rw [if_neg hi] at hpi
        exact hInv.owner t' i h p hpi
    · intro i p hpi
      dsimp only at hpi ⊢
      by_cases hi : i = id
      · subst hi
        rw [if_pos rfl] at hpi
        have hpeq : p = applyUpdate policy u := (Option.some.inj hpi).symm
        subst hpeq
        show i ∈ s.tenantPolicies policy.tenantId
        exact hInv.complete i policy hp
      · rw [if_neg hi] at hpi
        exact hInv.complete i p hpi

lemma storeInv_delete (s : EngineState) (hInv : StoreInv s) (id : Nat) :
    StoreInv (deletePolicy s id).2 := by
  cases hp : s.policies id with
  | none =>
    have : (deletePolicy s id).2 = s := by simp [deletePolicy, hp]
    rw [this]; exact hInv
  | some policy =>
    have h2 : (deletePolicy s id).2 =
        { policies := fun i => if i = id then none else s.policies i,
          tenantPolicies := fun t =>
            if t = policy.tenantId then
              (s.tenantPolicies policy.tenantId).filter (fun i => i != id)
            else s.tenantPolicies t,
          nextId := s.nextId } := by
      simp [deletePolicy, hp]
    rw [h2]
    refine ⟨?_, ?_, ?_, ?_⟩
    · intro t'
      dsimp only
      by_cases ht : t' = policy.tenantId
      · rw [if_pos ht]
        exact List.Pairwise.filter _ (hInv.chain policy.tenantId)
      · rw [if_neg ht]
        exact hInv.chain t'
    · intro t' i h
      dsimp only at h ⊢
      by_cases ht : t' = policy.tenantId
      · rw [if_pos ht] at h
        exact hInv.bound policy.tenantId i (List.mem_of_mem_filter h)
      · rw [if_neg ht] at h
        exact hInv.bound t' i h
    · intro t' i h p hpi
      dsimp only at h hpi ⊢
      by_cases hi : i = id
      · rw [if_pos hi] at hpi; exact absurd hpi (by simp)
      · rw [if_neg hi] at hpi
        by_cases ht : t' = policy.tenantId
        · rw [if_pos ht] at h
          have := hInv.owner policy.tenantId i (List.mem_of_mem_filter h) p hpi
          exact ⟨this.1.trans ht.symm, this.2⟩
        · rw [if_neg ht] at h
          exact hInv.owner t' i h p hpi
    · intro i p hpi
      dsimp only at hpi ⊢
      by_cases hi : i = id
      · rw [if_pos hi] at hpi; exact absurd hpi (by simp)
      · rw [if_neg hi] at hpi
        have hmem := hInv.complete i p hpi
        by_cases ht : p.tenantId = policy.tenantId
        · rw [if_pos ht]
          apply List.mem_filter.mpr
          refine ⟨ht ▸ hmem, ?_⟩
          simpa using hi
        · rw [if_neg ht]
          exact hmem

lemma storeInv_applyOp (s : EngineState) (hInv : StoreInv s) (op : StoreOp) :
    StoreInv (applyOp s op) := by
  cases op with
  | create t n rs d pr en => exact storeInv_create s hInv t n rs d pr en
  | update i u => exact storeInv_update s hInv i u
  | delete i => exact storeInv_delete s hInv i

lemma storeInv_runOps (ops : List StoreOp) : StoreInv (runOps ops) := by
  have hgen : ∀ s, StoreInv s → StoreInv (ops.foldl applyOp s) := by
    induction ops with
    | nil => intro s h; exact h
    | cons op rest ih =>
      intro s h
      exact ih (applyOp s op) (storeInv_applyOp s h op)
  exact hgen initState storeInv_init

lemma pairwise_createdAt_filterMap (f : Nat → Option Policy) :
    ∀ ids : List Nat, ids.Pairwise (· < ·) →
      (∀ i ∈ ids, ∀ p, f i = some p → p.createdAt = i) →
      (ids.filterMap f).Pairwise (fun a b => a.createdAt < b.createdAt) := by
  intro ids
  induction ids with
  | nil => intro _ _; simp
  | cons i rest ih =>
    intro hpw hcr
    rcases List.pairwise_cons.mp hpw with ⟨hi, hrest⟩
    rw [List.filterMap_cons]
    cases hf : f i with
    | none => exact ih hrest (fun j hj => hcr j (List.mem_cons_of_mem _ hj))
    | some p =>
      apply List.pairwise_cons.mpr
      constructor
      · intro q hq
        rcases List.mem_filterMap.mp hq with ⟨j, hj, hfj⟩
        have hqc : q.createdAt = j := hcr j (List.mem_cons_of_mem _ hj) q hfj
        have hpc : p.createdAt = i := hcr i (List.mem_cons_self _ _) p hf
        rw [hqc, hpc]
        exact hi j hj
      · exact ih hrest (fun j hj => hcr j (List.mem_cons_of_mem _ hj))

/-- C6: in every reachable store state, `listPolicies` returns all of
the policies the tenant index resolves for that tenant (a permutation
of the index view, and every stored policy of the tenant is listed),
ordered so that a policy with strictly higher priority comes first and
two policies of equal priority appear in creation order — the tenant
index lists ids in insertion order, which is creation order since ids
are appended once at creation and never reordered, and the sort is
stable. -/
theorem listPolicies_sorted_stable (ops : List StoreOp) (t : String) :
    (listPolicies (runOps ops) t).Pairwise listedBefore ∧
    (listPolicies (runOps ops) t).Perm
      (((runOps ops).tenantPolicies t).filterMap (runOps ops).policies) ∧
    (∀ i p, (runOps ops).policies i = some p → p.tenantId = t →
      p ∈ listPolicies (runOps ops) t) := by
  have hInv := storeInv_runOps ops
  refine ⟨?_, sortDesc_perm _, ?_⟩
  · apply pairwise_sortDesc
    apply pairwise_createdAt_filterMap _ _ (hInv.chain t)
    intro i hi p hp
    exact (hInv.owner t i hi p hp).2
  · intro i p hp hpt
    have hmem : i ∈ (runOps ops).tenantPolicies t := by
      have := hInv.complete i p hp
      rwa [hpt] at this
    have hpm : p ∈ ((runOps ops).tenantPolicies t).filterMap (runOps ops).policies :=
      List.mem_filterMap.mpr ⟨i, hmem, hp⟩
    exact ((sortDesc_perm _).mem_iff).mpr hpm

/-- The single operation and resulting policy used by the C6 witness. -/
def c6Ops : List StoreOp := [StoreOp.create "t6" "P6" [] none none none]

/-- The policy record `c6Ops` creates. -/
def c6Policy : Policy :=
  { id := 0, tenantId := "t6", name := "P6", description := none,
    rules := [], priority := 0, enabled := true, createdAt := 0 }

/-- C6 witness: the completeness part of the theorem applied to a
concrete reachable state holding one policy. -/
theorem listPolicies_sorted_stable_witness :
    c6Policy ∈ listPolicies (runOps c6Ops) "t6" :=
  (listPolicies_sorted_stable c6Ops "t6").2.2 0 c6Policy rfl rfl

/-- C7: in every store state reachable by any sequence of create,
update and delete operations, `listPolicies t` returns only policies
whose `tenantId` is `t` — no policy of another tenant is ever
returned. -/
theorem listPolicies_tenant_isolated (ops : List StoreOp) (t : String)
    (p : Policy) (h : p ∈ listPolicies (runOps ops) t) : p.tenantId = t := by
  have hInv := storeInv_runOps ops
  have h' : p ∈ ((runOps ops).tenantPolicies t).filterMap (runOps ops).policies :=
    ((sortDesc_perm (((runOps ops).tenantPolicies t).filterMap (runOps ops).policies)).mem_iff).mp h
  rcases List.mem_filterMap.mp h' with ⟨i, hi, hp⟩
  exact (hInv.owner t i hi p hp).1

/-- The single operation and policy used by the C7 witness. -/
def c7Ops : List StoreOp := [StoreOp.create "t7" "P7" [] none none none]

/-- The policy record `c7Ops` creates. -/
def c7Policy : Policy :=
  { id := 0, tenantId := "t7", name := "P7", description := none,
    rules := [], priority := 0, enabled := true, createdAt := 0 }

/-- C7 witness: the theorem applied at a concrete reachable state and a
concrete member of the listing. -/
theorem listPolicies_tenant_isolated_witness : c7Policy.tenantId = "t7" :=
  listPolicies_tenant_isolated c7Ops "t7" c7Policy (by
    have h : listPolicies (runOps c7Ops) "t7" = [c7Policy] := rfl
    rw [h]
    exact List.mem_cons_self _ _)
